import Mathlib

/-!
Verification of `src/tools/generate_astrovpn_profile.py`.

The script has two pure functions:

  * `generate_astrovpn_url(name, server, domain_service, key_url, description="")`
    builds the dict `{"name": .., "server": .., "domain_service": ..,
    "key_url": .., "description": ..}`, serializes it with
    `json.dumps(profile, separators=(',', ':'))` (compact, `ensure_ascii`
    default, insertion key order), base64-encodes the UTF-8 bytes and
    returns `"astrovpn://" + encoded`.

  * `decode_astrovpn_url(url)` raises `ValueError` when the input does not
    start with `astrovpn://`, otherwise strips that scheme marker, runs
    `base64.b64decode` (CPython non-strict mode) on the remainder, decodes
    the bytes as UTF-8 and runs `json.loads` on the text.

Python strings are embedded as `List Char` (Unicode scalar values; lone
surrogates, which CPython permits, are outside the model — no claim here
touches them).  Bytes are embedded as `Nat` values below 256.  The standard
library functions the script calls (`base64.b64encode`, `base64.b64decode`,
`json.dumps`, `json.loads`, `str.encode('utf-8')`, `bytes.decode('utf-8')`)
are embedded from their CPython semantics, as documented on each definition.
-/

/-- The characters of a string literal, the embedding of a Python `str`
constant. -/
def chars (s : String) : List Char := s.data

/-- The double-quote character `"` (U+0022). -/
def quoteChar : Char := Char.ofNat 34

/-- The backslash character `\` (U+005C). -/
def bslash : Char := Char.ofNat 92

/-- The opening-brace character (U+007B). -/
def lbrace : Char := Char.ofNat 123

/-- The closing-brace character (U+007D). -/
def rbrace : Char := Char.ofNat 125

/-- `url.startswith(pat)` for the embedded strings. -/
def startsWith : List Char → List Char → Bool
  | _, [] => true
  | [], _ :: _ => false
  | c :: cs, p :: ps => c = p && startsWith cs ps

/-! ## Base64 (CPython `base64` / `binascii`) -/

/-- The standard base64 alphabet, in table order. -/
def b64alphabet : List Char :=
  chars "ABCDEFGHIJKLMNOPQRSTUVWXYZabcdefghijklmnopqrstuvwxyz0123456789+/"

/-- The base64 character of a 6-bit group, `b64alphabet[n]`. -/
def encChar (n : Nat) : Char := b64alphabet.getD n (Char.ofNat 65)

/-- Position of a character in an alphabet list, counting from `i`
(the decoding table lookup of `binascii`). -/
def tableLookup : List Char → Nat → Char → Option Nat
  | [], _, _ => none
  | a :: as, i, c => if a = c then some i else tableLookup as (i + 1) c

/-- `table_a2b_base64[c]`: the 6-bit value of a base64 alphabet character,
`none` for a character outside the alphabet. -/
def b64index (c : Char) : Option Nat := tableLookup b64alphabet 0 c

/-- Models CPython `base64.b64encode` on a byte list (each byte is assumed
`< 256`): emit four alphabet characters per three input bytes, padding a
final group of one or two bytes with `=`. -/
def b64encode : List Nat → List Char
  | [] => []
  | [a] => [encChar (a / 4), encChar (a % 4 * 16), Char.ofNat 61, Char.ofNat 61]
  | [a, b] => [encChar (a / 4), encChar (a % 4 * 16 + b / 16),
      encChar (b % 16 * 4), Char.ofNat 61]
  | a :: b :: c :: rest =>
      encChar (a / 4) :: encChar (a % 4 * 16 + b / 16) ::
      encChar (b % 16 * 4 + c / 64) :: encChar (c % 64) :: b64encode rest

/-- Models the character loop of CPython `binascii.a2b_base64` in
non-strict mode (the mode `base64.b64decode` uses): characters outside the
alphabet are skipped; a `=` seen with at least two data characters in the
current group and completing that group ends decoding successfully,
discarding the rest of the input; leftover data characters at the end are
an error (`none`).  State: current characters in the group (`quadPos`),
carried bits (`leftchar`), pending pad characters (`pads`). -/
def a2bLoop : List Char → Nat → Nat → Nat → Option (List Nat)
  | [], 0, _, _ => some []
  | [], _ + 1, _, _ => none
  | c :: rest, quadPos, leftchar, pads =>
    if c = Char.ofNat 61 then
      if 2 ≤ quadPos then
        if 4 ≤ quadPos + pads + 1 then some []
        else a2bLoop rest quadPos leftchar (pads + 1)
      else a2bLoop rest quadPos leftchar pads
    else
      match b64index c with
      | none => a2bLoop rest quadPos leftchar pads
      | some v =>
        match quadPos with
        | 0 => a2bLoop rest 1 v 0
        | 1 => (a2bLoop rest 2 (v % 16) 0).map fun bs => (leftchar * 4 + v / 16) :: bs
        | 2 => (a2bLoop rest 3 (v % 4) 0).map fun bs => (leftchar * 16 + v / 4) :: bs
        | _ => (a2bLoop rest 0 0 0).map fun bs => (leftchar * 64 + v) :: bs

/-- Models CPython `base64.b64decode` on a `str` argument: the string must
be pure ASCII (else `ValueError`), then the `a2b_base64` non-strict loop
runs.  `none` embeds raising `ValueError` / `binascii.Error`. -/
def b64decode (cs : List Char) : Option (List Nat) :=
  if cs.all (fun c => c.toNat < 128) then a2bLoop cs 0 0 0 else none

/-! ## UTF-8 (`str.encode('utf-8')` / `bytes.decode('utf-8')`) -/

/-- The UTF-8 bytes of one Unicode scalar value (1 to 4 bytes). -/
def utf8EncodeChar (c : Char) : List Nat :=
  let n := c.toNat
  if n < 0x80 then [n]
  else if n < 0x800 then [0xc0 + n / 0x40, 0x80 + n % 0x40]
  else if n < 0x10000 then
    [0xe0 + n / 0x1000, 0x80 + n / 0x40 % 0x40, 0x80 + n % 0x40]
  else
    [0xf0 + n / 0x40000, 0x80 + n / 0x1000 % 0x40,
     0x80 + n / 0x40 % 0x40, 0x80 + n % 0x40]

/-- Models `str.encode('utf-8')`. -/
def utf8Encode : List Char → List Nat
  | [] => []
  | c :: cs => utf8EncodeChar c ++ utf8Encode cs

/-- The byte loop of strict UTF-8 decoding: `need = 0` expects a start
byte; otherwise `need` continuation bytes are still expected, `acc` holds
the code-point bits read so far and `lo`/`hi` bound the next continuation
byte (the first continuation byte of a sequence has a narrowed range that
excludes overlong encodings, surrogate code points and values above
U+10FFFF, exactly as CPython's strict decoder does). -/
def utf8Loop : List Nat → Nat → Nat → Nat → Nat → Option (List Char)
  | [], _, 0, _, _ => some []
  | [], _, _ + 1, _, _ => none
  | b :: rest, _, 0, _, _ =>
    if b < 0x80 then (utf8Loop rest 0 0 0 0).map fun cs => Char.ofNat b :: cs
    else if b < 0xc2 then none
    else if b < 0xe0 then utf8Loop rest (b - 0xc0) 1 0x80 0xbf
    else if b < 0xf0 then
      utf8Loop rest (b - 0xe0) 2 (if b = 0xe0 then 0xa0 else 0x80)
        (if b = 0xed then 0x9f else 0xbf)
    else if b < 0xf5 then
      utf8Loop rest (b - 0xf0) 3 (if b = 0xf0 then 0x90 else 0x80)
        (if b = 0xf4 then 0x8f else 0xbf)
    else none
  | b :: rest, acc, need + 1, lo, hi =>
    if lo ≤ b ∧ b ≤ hi then
      match need with
      | 0 => (utf8Loop rest 0 0 0 0).map fun cs =>
          Char.ofNat (acc * 0x40 + (b - 0x80)) :: cs
      | _ => utf8Loop rest (acc * 0x40 + (b - 0x80)) need 0x80 0xbf
    else none

/-- Models `bytes.decode('utf-8')` (strict, CPython default): rejects
stray continuation bytes, truncated sequences, overlong encodings and
surrogate code points; `none` embeds raising `UnicodeDecodeError`. -/
def utf8Decode (bs : List Nat) : Option (List Char) := utf8Loop bs 0 0 0 0

/-! ## JSON (`json.dumps` / `json.loads`) -/

/-- An embedded Python string-to-string dict in insertion order.  The
profile dict and every parsed payload in the claims below have this shape;
JSON values other than strings are outside the model. -/
abbrev Obj := List (List Char × List Char)

/-- Lowercase hexadecimal digit, as CPython `'\u%04x'` formatting uses. -/
def hexDigitChar (n : Nat) : Char := (chars "0123456789abcdef").getD n (Char.ofNat 48)

/-- The six-character escape `\uXXXX` of a 16-bit value. -/
def uEscape (n : Nat) : List Char :=
  [bslash, 'u', hexDigitChar (n / 0x1000 % 16), hexDigitChar (n / 0x100 % 16),
   hexDigitChar (n / 16 % 16), hexDigitChar (n % 16)]

/-- Models the per-character escaping of CPython
`json.encoder.py_encode_basestring_ascii` (`ensure_ascii` default): escape
backslash, double quote, the named control escapes, all other characters
outside `0x20`–`0x7e` as `\uXXXX` (a surrogate pair for astral characters);
everything else is emitted verbatim. -/
def escapeChar (c : Char) : List Char :=
  if c = bslash then [bslash, bslash]
  else if c = quoteChar then [bslash, quoteChar]
  else if c.toNat = 8 then [bslash, 'b']
  else if c.toNat = 9 then [bslash, 't']
  else if c.toNat = 10 then [bslash, 'n']
  else if c.toNat = 12 then [bslash, 'f']
  else if c.toNat = 13 then [bslash, 'r']
  else if 0x20 ≤ c.toNat ∧ c.toNat ≤ 0x7e then [c]
  else if c.toNat < 0x10000 then uEscape c.toNat
  else uEscape (0xd800 + (c.toNat - 0x10000) / 0x400) ++
       uEscape (0xdc00 + (c.toNat - 0x10000) % 0x400)

/-- The escaped form of a whole string. -/
def escStr : List Char → List Char
  | [] => []
  | c :: cs => escapeChar c ++ escStr cs

/-- A JSON string literal: quote, escaped characters, quote. -/
def dumpStr (s : List Char) : List Char := quoteChar :: escStr s ++ [quoteChar]

/-- One `"key":"value"` member with the `':'` item separator of
`separators=(',', ':')`. -/
def dumpMember (k v : List Char) : List Char := dumpStr k ++ ':' :: dumpStr v

/-- The remaining members, each preceded by the `','` separator. -/
def dumpMembersRest : Obj → List Char
  | [] => []
  | (k, v) :: ms => ',' :: dumpMember k v ++ dumpMembersRest ms

/-- Models `json.dumps(obj, separators=(',', ':'))` on a string-valued dict
in insertion order: compact braces, no whitespace, keys in order. -/
def dumpObj : Obj → List Char
  | [] => [lbrace, rbrace]
  | (k, v) :: ms => lbrace :: dumpMember k v ++ dumpMembersRest ms ++ [rbrace]

/-- JSON whitespace accepted between tokens by `json.loads`. -/
def isJsonWS (c : Char) : Bool :=
  c = ' ' || c.toNat = 9 || c.toNat = 10 || c.toNat = 13

/-- Drop leading JSON whitespace. -/
def skipWS : List Char → List Char
  | [] => []
  | c :: cs => if isJsonWS c then skipWS cs else c :: cs

/-- Value of one hexadecimal digit (either case), as in `\uXXXX` escapes. -/
def hexVal (c : Char) : Option Nat :=
  if 48 ≤ c.toNat ∧ c.toNat ≤ 57 then some (c.toNat - 48)
  else if 97 ≤ c.toNat ∧ c.toNat ≤ 102 then some (c.toNat - 87)
  else if 65 ≤ c.toNat ∧ c.toNat ≤ 70 then some (c.toNat - 55)
  else none

/-- The decoded character of a single-character backslash escape
(`\uXXXX` is handled separately). -/
def escCharOf (c : Char) : Option Char :=
  if c = quoteChar then some quoteChar
  else if c = bslash then some bslash
  else if c = '/' then some '/'
  else if c = 'b' then some (Char.ofNat 8)
  else if c = 'f' then some (Char.ofNat 12)
  else if c = 'n' then some (Char.ofNat 10)
  else if c = 'r' then some (Char.ofNat 13)
  else if c = 't' then some (Char.ofNat 9)
  else none

/-- The character loop of the JSON string scanner of `json.loads`, one
character at a time, starting after the opening quote.  `mode` 0 reads raw
characters up to the closing quote (raw control characters below `0x20`
are rejected, `strict` default) and starts escapes; mode 1 is after a
backslash; modes 2–5 collect the four hex digits of a `\uXXXX` escape
into `acc`; a high-surrogate escape stores its value in `hi` and modes
6–11 demand the immediately following `\uXXXX` low surrogate and combine
the pair.  A lone surrogate escape — which CPython maps to a
lone-surrogate `str`, unrepresentable as a Lean `Char` — is outside the
model and rejected. -/
def jstrLoop : List Char → Nat → Nat → Nat → Option (List Char × List Char)
  | [], _, _, _ => none
  | c :: rest, 0, _, _ =>
    if c = quoteChar then some ([], rest)
    else if c = bslash then jstrLoop rest 1 0 0
    else if c.toNat < 0x20 then none
    else (jstrLoop rest 0 0 0).map fun sr => (c :: sr.1, sr.2)
  | c :: rest, 1, _, _ =>
    if c = 'u' then jstrLoop rest 2 0 0
    else
      match escCharOf c with
      | some d => (jstrLoop rest 0 0 0).map fun sr => (d :: sr.1, sr.2)
      | none => none
  | c :: rest, 2, acc, _ =>
    match hexVal c with
    | some d => jstrLoop rest 3 (acc * 16 + d) 0
    | none => none
  | c :: rest, 3, acc, _ =>
    match hexVal c with
    | some d => jstrLoop rest 4 (acc * 16 + d) 0
    | none => none
  | c :: rest, 4, acc, _ =>
    match hexVal c with
    | some d => jstrLoop rest 5 (acc * 16 + d) 0
    | none => none
  | c :: rest, 5, acc, _ =>
    match hexVal c with
    | some d =>
      if acc * 16 + d < 0xd800 ∨ 0xe000 ≤ acc * 16 + d then
        (jstrLoop rest 0 0 0).map fun sr => (Char.ofNat (acc * 16 + d) :: sr.1, sr.2)
      else if acc * 16 + d < 0xdc00 then jstrLoop rest 6 0 (acc * 16 + d)
      else none
    | none => none
  | c :: rest, 6, _, hi => if c = bslash then jstrLoop rest 7 0 hi else none
  | c :: rest, 7, _, hi => if c = 'u' then jstrLoop rest 8 0 hi else none
  | c :: rest, 8, acc, hi =>
    match hexVal c with
    | some d => jstrLoop rest 9 (acc * 16 + d) hi
    | none => none
  | c :: rest, 9, acc, hi =>
    match hexVal c with
    | some d => jstrLoop rest 10 (acc * 16 + d) hi
    | none => none
  | c :: rest, 10, acc, hi =>
    match hexVal c with
    | some d => jstrLoop rest 11 (acc * 16 + d) hi
    | none => none
  | c :: rest, 11, acc, hi =>
    match hexVal c with
    | some d =>
      if 0xdc00 ≤ acc * 16 + d ∧ acc * 16 + d < 0xe000 then
        (jstrLoop rest 0 0 0).map fun sr =>
          (Char.ofNat (0x10000 + (hi - 0xd800) * 0x400 + (acc * 16 + d - 0xdc00)) :: sr.1,
            sr.2)
      else none
    | none => none
  | _ :: _, _ + 12, _, _ => none

/-- The JSON string scanner of `json.loads` after the opening quote:
returns the decoded string and the input after the closing quote. -/
def parseJString (cs : List Char) : Option (List Char × List Char) := jstrLoop cs 0 0 0

/-- The member loop of the `json.loads` object parser (non-empty object
case): `"key" : "value"` members separated by `','`, terminated by the
closing brace.  The fuel argument bounds the number of members and is
instantiated with the input length. -/
def parseMembersLoop : Nat → List Char → Option (Obj × List Char)
  | 0, _ => none
  | fuel + 1, cs =>
    match skipWS cs with
    | c0 :: cs1 =>
      if c0 = quoteChar then
        match parseJString cs1 with
        | some (k, cs2) =>
          match skipWS cs2 with
          | c1 :: cs3 =>
            if c1 = ':' then
              match skipWS cs3 with
              | c2 :: cs4 =>
                if c2 = quoteChar then
                  match parseJString cs4 with
                  | some (v, cs5) =>
                    match skipWS cs5 with
                    | c3 :: cs6 =>
                      if c3 = ',' then
                        match parseMembersLoop fuel cs6 with
                        | some (ms, rest) => some ((k, v) :: ms, rest)
                        | none => none
                      else if c3 = rbrace then some ([(k, v)], cs6)
                      else none
                    | [] => none
                  | none => none
                else none
              | [] => none
            else none
          | [] => none
        | none => none
      else none
    | [] => none

/-- Models `json.loads`, restricted to top-level objects whose values are
strings — the shape the profile tool produces and the only shape the
claims below exercise.  Leading and trailing whitespace is skipped, extra
trailing data is an error.  `none` embeds raising `JSONDecodeError`. -/
def json_loads (s : List Char) : Option Obj :=
  match skipWS s with
  | c :: cs =>
    if c = lbrace then
      match skipWS cs with
      | c1 :: cs1 =>
        if c1 = rbrace then
          if skipWS cs1 = [] then some [] else none
        else
          match parseMembersLoop (s.length + 1) cs with
          | some (ms, rest) => if skipWS rest = [] then some ms else none
          | none => none
      | [] => none
    else none
  | [] => none

/-! ## The two program functions and the dispatcher branch -/

/-- The error kinds of the spec's taxonomy for `decode_astrovpn_url`:
`InvalidScheme` is the explicit `ValueError` of line 32, `MalformedEncoding`
the `ValueError`/`binascii.Error` escaping from `base64.b64decode`,
`MalformedPayload` the `UnicodeDecodeError`/`JSONDecodeError` escaping from
`bytes.decode('utf-8')` or `json.loads`. -/
inductive DecodeError
  | invalidScheme
  | malformedEncoding
  | malformedPayload
deriving DecidableEq

/-- The literal scheme marker `astrovpn://`. -/
def schemeChars : List Char := chars "astrovpn://"

/-- The profile dict built on lines 14–20, in insertion order. -/
def profileObj (name server domain_service key_url description : List Char) : Obj :=
  [(chars "name", name), (chars "server", server),
   (chars "domain_service", domain_service), (chars "key_url", key_url),
   (chars "description", description)]

/-- `generate_astrovpn_url` (lines 11–26): serialize the profile dict with
compact separators, UTF-8 encode, base64 encode, prepend the scheme. -/
def generate_astrovpn_url (name server domain_service key_url description : List Char) :
    List Char :=
  schemeChars ++
    b64encode (utf8Encode (dumpObj (profileObj name server domain_service key_url description)))

/-- `decode_astrovpn_url` (lines 28–38): reject a missing scheme marker,
strip it, base64-decode the remainder, UTF-8 decode, parse as JSON. -/
def decode_astrovpn_url (url : List Char) : Except DecodeError Obj :=
  if startsWith url schemeChars then
    match b64decode (url.drop schemeChars.length) with
    | none => Except.error DecodeError.malformedEncoding
    | some bytes =>
      match utf8Decode bytes with
      | none => Except.error DecodeError.malformedPayload
      | some text =>
        match json_loads text with
        | none => Except.error DecodeError.malformedPayload
        | some obj => Except.ok obj
  else Except.error DecodeError.invalidScheme

/-- The `generate` branch of `main` (lines 53–62), taking the positional
arguments after the command word: fewer than four arguments print an error
and exit with failure (`none`); otherwise the encoder runs on the four
required fields and the optional fifth description, defaulting to the
empty string. -/
def main_generate (args : List (List Char)) : Option (List Char) :=
  if args.length < 4 then none
  else some (generate_astrovpn_url (args.getD 0 []) (args.getD 1 []) (args.getD 2 [])
    (args.getD 3 []) (args.getD 4 []))

/-! ## Base64 lemmas -/

/-- The decoding table inverts the encoding table on 6-bit values. -/
theorem b64index_encChar : ∀ v < 64, b64index (encChar v) = some v := by decide

/-- No alphabet character is the padding character `=`. -/
theorem encChar_ne_pad : ∀ v < 64, encChar v ≠ Char.ofNat 61 := by decide

/-- Every alphabet character is an ASCII character. -/
theorem b64alphabet_ascii : ∀ c ∈ b64alphabet, c.toNat < 128 := by decide

/-- Alphabet characters of 6-bit values are in the alphabet. -/
theorem encChar_mem : ∀ v < 64, encChar v ∈ b64alphabet := by decide

/-- Consuming one alphabet character with an empty group. -/
theorem a2bLoop_step0 (v : Nat) (hv : v < 64) (rest : List Char) (l p : Nat) :
    a2bLoop (encChar v :: rest) 0 l p = a2bLoop rest 1 v 0 := by
  simp [a2bLoop, encChar_ne_pad v hv, b64index_encChar v hv]

/-- Consuming the second alphabet character of a group. -/
theorem a2bLoop_step1 (v : Nat) (hv : v < 64) (rest : List Char) (l p : Nat) :
    a2bLoop (encChar v :: rest) 1 l p =
      (a2bLoop rest 2 (v % 16) 0).map fun bs => (l * 4 + v / 16) :: bs := by
  simp [a2bLoop, encChar_ne_pad v hv, b64index_encChar v hv]

/-- Consuming the third alphabet character of a group. -/
theorem a2bLoop_step2 (v : Nat) (hv : v < 64) (rest : List Char) (l p : Nat) :
    a2bLoop (encChar v :: rest) 2 l p =
      (a2bLoop rest 3 (v % 4) 0).map fun bs => (l * 16 + v / 4) :: bs := by
  simp [a2bLoop, encChar_ne_pad v hv, b64index_encChar v hv]

/-- Consuming the fourth alphabet character of a group. -/
theorem a2bLoop_step3 (v : Nat) (hv : v < 64) (rest : List Char) (l p : Nat) :
    a2bLoop (encChar v :: rest) 3 l p =
      (a2bLoop rest 0 0 0).map fun bs => (l * 64 + v) :: bs := by
  simp [a2bLoop, encChar_ne_pad v hv, b64index_encChar v hv]

/-- A first padding character after two data characters is pending. -/
theorem a2bLoop_pad2 (rest : List Char) (l : Nat) :
    a2bLoop (Char.ofNat 61 :: rest) 2 l 0 = a2bLoop rest 2 l 1 := by
  simp [a2bLoop]

/-- A second padding character after two data characters completes the
group and ends decoding. -/
theorem a2bLoop_pad2_done (rest : List Char) (l : Nat) :
    a2bLoop (Char.ofNat 61 :: rest) 2 l 1 = some [] := by
  simp [a2bLoop]

/-- A padding character after three data characters completes the group
and ends decoding. -/
theorem a2bLoop_pad3_done (rest : List Char) (l p : Nat) :
    a2bLoop (Char.ofNat 61 :: rest) 3 l p = some [] := by
  simp [a2bLoop]

/-- The non-strict decoder loop inverts the encoder: on the exact output
of `b64encode` over genuine bytes it returns exactly those bytes. -/
theorem a2b_b64encode : ∀ bs : List Nat, (∀ b ∈ bs, b < 256) →
    a2bLoop (b64encode bs) 0 0 0 = some bs
  | [], _ => rfl
  | [a], h => by
    have ha : a < 256 := h a (by simp)
    have h1 : a / 4 < 64 := by omega
    have h2 : a % 4 * 16 < 64 := by omega
    rw [show b64encode [a] = encChar (a / 4) :: encChar (a % 4 * 16) ::
      Char.ofNat 61 :: Char.ofNat 61 :: [] from rfl]
    rw [a2bLoop_step0 _ h1, a2bLoop_step1 _ h2, a2bLoop_pad2, a2bLoop_pad2_done]
    simp
    omega
  | [a, b], h => by
    have ha : a < 256 := h a (by simp)
    have hb : b < 256 := h b (by simp)
    have h1 : a / 4 < 64 := by omega
    have h2 : a % 4 * 16 + b / 16 < 64 := by omega
    have h3 : b % 16 * 4 < 64 := by omega
    rw [show b64encode [a, b] = encChar (a / 4) :: encChar (a % 4 * 16 + b / 16) ::
      encChar (b % 16 * 4) :: Char.ofNat 61 :: [] from rfl]
    rw [a2bLoop_step0 _ h1, a2bLoop_step1 _ h2, a2bLoop_step2 _ h3, a2bLoop_pad3_done]
    simp
    omega
  | a :: b :: c :: rest, h => by
    have ha : a < 256 := h a (by simp)
    have hb : b < 256 := h b (by simp)
    have hc : c < 256 := h c (by simp)
    have h1 : a / 4 < 64 := by omega
    have h2 : a % 4 * 16 + b / 16 < 64 := by omega
    have h3 : b % 16 * 4 + c / 64 < 64 := by omega
    have h4 : c % 64 < 64 := by omega
    rw [show b64encode (a :: b :: c :: rest) = encChar (a / 4) ::
      encChar (a % 4 * 16 + b / 16) :: encChar (b % 16 * 4 + c / 64) ::
      encChar (c % 64) :: b64encode rest from rfl]
    rw [a2bLoop_step0 _ h1, a2bLoop_step1 _ h2, a2bLoop_step2 _ h3, a2bLoop_step3 _ h4]
    rw [a2b_b64encode rest (fun x hx => h x (by simp [hx]))]
    simp
    omega

/-- Every character the encoder emits is an alphabet character or the
padding character. -/
theorem b64encode_mem : ∀ bs : List Nat, (∀ b ∈ bs, b < 256) →
    ∀ c ∈ b64encode bs, c ∈ b64alphabet ∨ c = Char.ofNat 61
  | [], _ => by simp [b64encode]
  | [a], h => by
    have ha : a < 256 := h a (by simp)
    intro c hc
    simp only [b64encode, List.mem_cons, List.not_mem_nil, or_false] at hc
    rcases hc with rfl | rfl | rfl | rfl
    · exact Or.inl (encChar_mem _ (by omega))
    · exact Or.inl (encChar_mem _ (by omega))
    · exact Or.inr rfl
    · exact Or.inr rfl
  | [a, b], h => by
    have ha : a < 256 := h a (by simp)
    have hb : b < 256 := h b (by simp)
    intro c hc
    simp only [b64encode, List.mem_cons, List.not_mem_nil, or_false] at hc
    rcases hc with rfl | rfl | rfl | rfl
    · exact Or.inl (encChar_mem _ (by omega))
    · exact Or.inl (encChar_mem _ (by omega))
    · exact Or.inl (encChar_mem _ (by omega))
    · exact Or.inr rfl
  | a :: b :: c :: rest, h => by
    have ha : a < 256 := h a (by simp)
    have hb : b < 256 := h b (by simp)
    have hc : c < 256 := h c (by simp)
    intro x hx
    simp only [b64encode, List.mem_cons] at hx
    rcases hx with rfl | rfl | rfl | rfl | hx
    · exact Or.inl (encChar_mem _ (by omega))
    · exact Or.inl (encChar_mem _ (by omega))
    · exact Or.inl (encChar_mem _ (by omega))
    · exact Or.inl (encChar_mem _ (by omega))
    · exact b64encode_mem rest (fun y hy => h y (by simp [hy])) x hx

/-- The encoder output is pure ASCII. -/
theorem b64encode_ascii (bs : List Nat) (h : ∀ b ∈ bs, b < 256) :
    ∀ c ∈ b64encode bs, c.toNat < 128 := by
  intro c hc
  rcases b64encode_mem bs h c hc with hm | rfl
  · exact b64alphabet_ascii c hm
  · decide

/-- Number of data (alphabet) characters in an input, the quantity whose
remainder modulo 4 drives the decoder's leftover-character errors. -/
def b64charCount : List Char → Nat
  | [] => 0
  | c :: cs => (if (b64index c).isSome then 1 else 0) + b64charCount cs

/-- Without padding characters, the decoder loop fails exactly when the
data characters seen do not form whole groups of four: if the count of
alphabet characters (plus the group position carried in) is not a multiple
of four, the loop returns an error. -/
theorem a2bLoop_none_of_count (cs : List Char) : ∀ q l p, q < 4 →
    (∀ c ∈ cs, c ≠ Char.ofNat 61) → (q + b64charCount cs) % 4 ≠ 0 →
    a2bLoop cs q l p = none := by
  induction cs with
  | nil =>
    intro q l p hq hne hcount
    simp only [b64charCount, Nat.add_zero] at hcount
    interval_cases q
    · omega
    · rfl
    · rfl
    · rfl
  | cons c cs ih =>
    intro q l p hq hne hcount
    have hcne : c ≠ Char.ofNat 61 := hne c (by simp)
    have hne2 : ∀ x ∈ cs, x ≠ Char.ofNat 61 := fun x hx => hne x (by simp [hx])
    simp only [a2bLoop, if_neg hcne]
    cases hbi : b64index c with
    | none =>
      simp only [b64charCount, hbi, Option.isSome_none, Bool.false_eq_true, if_false,
        Nat.zero_add] at hcount
      exact ih q l p hq hne2 hcount
    | some v =>
      simp only [b64charCount, hbi, Option.isSome_some, if_true] at hcount
      interval_cases q
      · exact ih 1 v 0 (by omega) hne2 (by omega)
      · show (a2bLoop cs 2 (v % 16) 0).map _ = none
        rw [ih 2 (v % 16) 0 (by omega) hne2 (by omega)]; rfl
      · show (a2bLoop cs 3 (v % 4) 0).map _ = none
        rw [ih 3 (v % 4) 0 (by omega) hne2 (by omega)]; rfl
      · show (a2bLoop cs 0 0 0).map _ = none
        rw [ih 0 0 0 (by omega) hne2 (by omega)]; rfl

/-- A list starts with itself followed by anything. -/
theorem startsWith_append : ∀ (p x : List Char), startsWith (p ++ x) p = true
  | [], x => by cases x <;> rfl
  | c :: p, x => by simp [startsWith, startsWith_append p x]

/-! ## UTF-8 lemmas -/

/-- On an ASCII character, UTF-8 encoding is the single code-point byte. -/
theorem utf8EncodeChar_ascii (c : Char) (h : c.toNat < 128) :
    utf8EncodeChar c = [c.toNat] := by
  simp [utf8EncodeChar, h]

/-- On an ASCII string, UTF-8 encoding is the list of code points. -/
theorem utf8Encode_ascii (s : List Char) (h : ∀ c ∈ s, c.toNat < 128) :
    utf8Encode s = s.map Char.toNat := by
  induction s with
  | nil => rfl
  | cons c cs ih =>
    simp [utf8Encode, utf8EncodeChar_ascii c (h c (by simp)),
      ih (fun x hx => h x (by simp [hx]))]

/-- Decoding one ASCII byte at the head of the input. -/
theorem utf8Loop_cons_ascii (b : Nat) (hb : b < 0x80) (rest : List Nat) (acc lo hi : Nat) :
    utf8Loop (b :: rest) acc 0 lo hi =
      (utf8Loop rest 0 0 0 0).map fun cs => Char.ofNat b :: cs := by
  simp [utf8Loop, hb]

/-- On ASCII code points, UTF-8 decoding recovers the characters. -/
theorem utf8Decode_ascii : ∀ (s : List Char), (∀ c ∈ s, c.toNat < 128) →
    utf8Decode (s.map Char.toNat) = some s
  | [], _ => rfl
  | c :: cs, h => by
    have hc : c.toNat < 128 := h c (by simp)
    show utf8Loop (c.toNat :: List.map Char.toNat cs) 0 0 0 0 = some (c :: cs)
    rw [utf8Loop_cons_ascii c.toNat (by omega)]
    have ih := utf8Decode_ascii cs (fun x hx => h x (by simp [hx]))
    rw [show utf8Loop (List.map Char.toNat cs) 0 0 0 0 = some cs from ih]
    simp only [Option.map_some', Char.ofNat_toNat]

/-! ## JSON lemmas -/

/-- Printable-ASCII test for an embedded string: every character in
`0x20`–`0x7e`.  This is the reading of the spec's "printable text". -/
def printableStr (s : List Char) : Bool :=
  s.all fun c => 0x20 ≤ c.toNat && c.toNat ≤ 0x7e

/-- Printable-ASCII test for all keys and values of a record. -/
def printableObj (obj : Obj) : Bool :=
  obj.all fun kv => printableStr kv.1 && printableStr kv.2

/-- Escaping the backslash. -/
theorem escapeChar_bslash : escapeChar bslash = [bslash, bslash] := rfl

/-- Escaping the double quote. -/
theorem escapeChar_quote : escapeChar quoteChar = [bslash, quoteChar] := rfl

/-- A printable character other than backslash and quote is emitted
verbatim. -/
theorem escapeChar_plain (c : Char) (h1 : 0x20 ≤ c.toNat) (h2 : c.toNat ≤ 0x7e)
    (hb : c ≠ bslash) (hq : c ≠ quoteChar) : escapeChar c = [c] := by
  simp [escapeChar, hb, hq, show ¬ c.toNat = 8 by omega, show ¬ c.toNat = 9 by omega,
    show ¬ c.toNat = 10 by omega, show ¬ c.toNat = 12 by omega,
    show ¬ c.toNat = 13 by omega, h1, h2]

/-- The scanner ends a string at an unescaped quote. -/
theorem jstrLoop_quote (rest : List Char) :
    jstrLoop (quoteChar :: rest) 0 0 0 = some ([], rest) := by
  simp [jstrLoop]

/-- The scanner enters escape mode at a backslash. -/
theorem jstrLoop_bslash (rest : List Char) :
    jstrLoop (bslash :: rest) 0 0 0 = jstrLoop rest 1 0 0 := by
  simp [jstrLoop, show bslash ≠ quoteChar by decide]

/-- The scanner consumes an ordinary character verbatim. -/
theorem jstrLoop_plain (c : Char) (rest : List Char) (h1 : 0x20 ≤ c.toNat)
    (hq : c ≠ quoteChar) (hb : c ≠ bslash) :
    jstrLoop (c :: rest) 0 0 0 =
      (jstrLoop rest 0 0 0).map fun sr => (c :: sr.1, sr.2) := by
  simp [jstrLoop, hq, hb, show ¬ c.toNat < 0x20 by omega]

/-- The escape `\"` decodes to a quote. -/
theorem jstrLoop_esc_quote (rest : List Char) :
    jstrLoop (quoteChar :: rest) 1 0 0 =
      (jstrLoop rest 0 0 0).map fun sr => (quoteChar :: sr.1, sr.2) := by
  simp [jstrLoop, escCharOf, show quoteChar ≠ 'u' by decide]

/-- The escape `\\` decodes to a backslash. -/
theorem jstrLoop_esc_bslash (rest : List Char) :
    jstrLoop (bslash :: rest) 1 0 0 =
      (jstrLoop rest 0 0 0).map fun sr => (bslash :: sr.1, sr.2) := by
  simp [jstrLoop, escCharOf, show bslash ≠ 'u' by decide,
    show bslash ≠ quoteChar by decide]

/-- The string scanner inverts the string escaper on printable strings:
scanning the escaped text followed by a closing quote yields the original
string and the input after the quote. -/
theorem jstrLoop_escStr : ∀ (s : List Char), printableStr s = true → ∀ rest,
    jstrLoop (escStr s ++ quoteChar :: rest) 0 0 0 = some (s, rest)
  | [], _, rest => by
    show jstrLoop ([] ++ quoteChar :: rest) 0 0 0 = some ([], rest)
    rw [List.nil_append, jstrLoop_quote]
  | c :: cs, h, rest => by
    have hh := h
    simp only [printableStr, List.all_cons, Bool.and_eq_true, decide_eq_true_eq] at hh
    obtain ⟨⟨hc1, hc2⟩, hcs'⟩ := hh
    have hcs : printableStr cs = true := hcs'
    have ih := jstrLoop_escStr cs hcs rest
    show jstrLoop ((escapeChar c ++ escStr cs) ++ quoteChar :: rest) 0 0 0 =
      some (c :: cs, rest)
    by_cases hb : c = bslash
    · subst hb
      rw [escapeChar_bslash]
      simp only [List.cons_append, List.nil_append, List.append_assoc]
      rw [jstrLoop_bslash, jstrLoop_esc_bslash, ih]
      rfl
    · by_cases hq : c = quoteChar
      · subst hq
        rw [escapeChar_quote]
        simp only [List.cons_append, List.nil_append, List.append_assoc]
        rw [jstrLoop_bslash, jstrLoop_esc_quote, ih]
        rfl
      · rw [escapeChar_plain c hc1 hc2 hb hq]
        simp only [List.cons_append, List.nil_append, List.append_assoc]
        rw [jstrLoop_plain c _ hc1 hq hb, ih]
        rfl

/-- `parseJString` inverts `escStr` on printable strings. -/
theorem parseJString_escStr (s : List Char) (h : printableStr s = true) (rest : List Char) :
    parseJString (escStr s ++ quoteChar :: rest) = some (s, rest) :=
  jstrLoop_escStr s h rest

/-- Whitespace skipping leaves a non-whitespace head alone. -/
theorem skipWS_cons (c : Char) (cs : List Char) (h : isJsonWS c = false) :
    skipWS (c :: cs) = c :: cs := by
  simp [skipWS, h]

/-- Whitespace skipping at a quote. -/
theorem skipWS_quote (cs : List Char) : skipWS (quoteChar :: cs) = quoteChar :: cs :=
  skipWS_cons _ _ (by decide)

/-- Whitespace skipping at a colon. -/
theorem skipWS_colon (cs : List Char) : skipWS (':' :: cs) = ':' :: cs :=
  skipWS_cons _ _ (by decide)

/-- Whitespace skipping at a comma. -/
theorem skipWS_comma (cs : List Char) : skipWS (',' :: cs) = ',' :: cs :=
  skipWS_cons _ _ (by decide)

/-- Whitespace skipping at a closing brace. -/
theorem skipWS_rbrace (cs : List Char) : skipWS (rbrace :: cs) = rbrace :: cs :=
  skipWS_cons _ _ (by decide)

/-- Whitespace skipping at an opening brace. -/
theorem skipWS_lbrace (cs : List Char) : skipWS (lbrace :: cs) = lbrace :: cs :=
  skipWS_cons _ _ (by decide)

/-- The member loop inverts the member serializer: parsing the serialized
members followed by the closing brace yields the members and the input
after the brace, given enough fuel. -/
theorem parseMembersLoop_dump : ∀ (ms : Obj) (k v rest : List Char) (fuel : Nat),
    printableStr k = true → printableStr v = true → printableObj ms = true →
    ms.length < fuel →
    parseMembersLoop fuel (dumpMember k v ++ dumpMembersRest ms ++ rbrace :: rest) =
      some ((k, v) :: ms, rest)
  | ms, k, v, rest, 0, _, _, _, hf => absurd hf (by omega)
  | [], k, v, rest, f + 1, hk, hv, _, _ => by
    have hkey := jstrLoop_escStr k hk
    have hval := jstrLoop_escStr v hv
    have e1 : dumpMember k v ++ dumpMembersRest [] ++ rbrace :: rest =
        quoteChar :: (escStr k ++ quoteChar ::
          (':' :: (quoteChar :: (escStr v ++ quoteChar :: (rbrace :: rest))))) := by
      simp [dumpMember, dumpStr, dumpMembersRest]
    rw [e1]
    simp only [parseMembersLoop, skipWS_quote, skipWS_colon, skipWS_rbrace, hkey, hval,
      parseJString, eq_self_iff_true, if_true, show rbrace ≠ ',' by decide, if_false]
  | (k2, v2) :: ms2, k, v, rest, f + 1, hk, hv, hms, hf => by
    have hmm := hms
    simp only [printableObj, List.all_cons, Bool.and_eq_true] at hmm
    obtain ⟨⟨hk2, hv2⟩, hms2'⟩ := hmm
    have hms2 : printableObj ms2 = true := hms2'
    have hkey := jstrLoop_escStr k hk
    have hval := jstrLoop_escStr v hv
    have ih := parseMembersLoop_dump ms2 k2 v2 rest f hk2 hv2 hms2
      (by simp at hf; omega)
    have e1 : dumpMember k v ++ dumpMembersRest ((k2, v2) :: ms2) ++ rbrace :: rest =
        quoteChar :: (escStr k ++ quoteChar ::
          (':' :: (quoteChar :: (escStr v ++ quoteChar ::
            (',' :: (dumpMember k2 v2 ++ dumpMembersRest ms2 ++ rbrace :: rest)))))) := by
      simp [dumpMember, dumpStr, dumpMembersRest]
    rw [e1]
    simp only [parseMembersLoop, skipWS_quote, skipWS_colon, skipWS_comma, hkey, hval,
      parseJString, eq_self_iff_true, if_true, ih]

/-- Serialized members are at least as long as the member list. -/
theorem dumpMembersRest_length (ms : Obj) : ms.length ≤ (dumpMembersRest ms).length := by
  induction ms with
  | nil => simp [dumpMembersRest]
  | cons kv ms ih =>
    obtain ⟨k, v⟩ := kv
    simp only [dumpMembersRest, List.length_cons, List.length_append]
    omega

/-- `json.loads` inverts `json.dumps` on printable string-valued records. -/
theorem json_loads_dumpObj : ∀ (obj : Obj), printableObj obj = true →
    json_loads (dumpObj obj) = some obj
  | [], _ => rfl
  | (k, v) :: ms, h => by
    have hh := h
    simp only [printableObj, List.all_cons, Bool.and_eq_true] at hh
    obtain ⟨⟨hk, hv⟩, hms'⟩ := hh
    have hms : printableObj ms = true := hms'
    have hexp : dumpMember k v ++ dumpMembersRest ms ++ rbrace :: [] =
        quoteChar :: (escStr k ++ quoteChar :: (':' :: (quoteChar ::
          (escStr v ++ quoteChar :: (dumpMembersRest ms ++ rbrace :: []))))) := by
      simp [dumpMember, dumpStr]
    have hobj : dumpObj ((k, v) :: ms) =
        lbrace :: (quoteChar :: (escStr k ++ quoteChar :: (':' :: (quoteChar ::
          (escStr v ++ quoteChar :: (dumpMembersRest ms ++ rbrace :: [])))))) := by
      simp [dumpObj, dumpMember, dumpStr]
    have hfuel : ms.length <
        (lbrace :: (dumpMember k v ++ dumpMembersRest ms ++ rbrace :: [])).length + 1 := by
      have h2 := dumpMembersRest_length ms
      simp only [List.length_cons, List.length_append]
      omega
    have hloop : parseMembersLoop
        ((lbrace :: (quoteChar :: (escStr k ++ quoteChar :: (':' :: (quoteChar ::
          (escStr v ++ quoteChar :: (dumpMembersRest ms ++ rbrace :: []))))))).length + 1)
        (quoteChar :: (escStr k ++ quoteChar :: (':' :: (quoteChar ::
          (escStr v ++ quoteChar :: (dumpMembersRest ms ++ rbrace :: [])))))) =
        some ((k, v) :: ms, []) := by
      rw [← hexp]
      exact parseMembersLoop_dump ms k v [] _ hk hv hms hfuel
    rw [hobj]
    simp only [json_loads, skipWS_lbrace, skipWS_quote, eq_self_iff_true, if_true,
      show quoteChar ≠ rbrace by decide, if_false, hloop]
    rfl

/-- Escaped printable text is ASCII. -/
theorem escStr_ascii : ∀ (s : List Char), printableStr s = true →
    ∀ c ∈ escStr s, c.toNat < 128
  | [], _, c, hc => by simp [escStr] at hc
  | x :: xs, h, c, hc => by
    have hh := h
    simp only [printableStr, List.all_cons, Bool.and_eq_true, decide_eq_true_eq] at hh
    obtain ⟨⟨hx1, hx2⟩, hxs'⟩ := hh
    have hxs : printableStr xs = true := hxs'
    simp only [escStr, List.mem_append] at hc
    rcases hc with hc | hc
    · by_cases hb : x = bslash
      · rw [hb, escapeChar_bslash] at hc
        simp only [List.mem_cons, List.not_mem_nil, or_false, or_self] at hc
        subst hc; decide
      · by_cases hq : x = quoteChar
        · rw [hq, escapeChar_quote] at hc
          simp only [List.mem_cons, List.not_mem_nil, or_false] at hc
          rcases hc with rfl | rfl <;> decide
        · rw [escapeChar_plain x hx1 hx2 hb hq] at hc
          simp only [List.mem_cons, List.not_mem_nil, or_false] at hc
          subst hc; omega
    · exact escStr_ascii xs hxs c hc

/-- A serialized string literal of printable text is ASCII. -/
theorem dumpStr_ascii (s : List Char) (h : printableStr s = true) :
    ∀ c ∈ dumpStr s, c.toNat < 128 := by
  intro c hc
  simp only [dumpStr, List.mem_cons, List.mem_append, List.not_mem_nil, or_false] at hc
  rcases hc with (rfl | hc) | rfl
  · decide
  · exact escStr_ascii s h c hc
  · decide

/-- A serialized member of printable text is ASCII. -/
theorem dumpMember_ascii (k v : List Char) (hk : printableStr k = true)
    (hv : printableStr v = true) : ∀ c ∈ dumpMember k v, c.toNat < 128 := by
  intro c hc
  simp only [dumpMember, List.mem_append, List.mem_cons] at hc
  rcases hc with hc | rfl | hc
  · exact dumpStr_ascii k hk c hc
  · decide
  · exact dumpStr_ascii v hv c hc

/-- Serialized trailing members of printable records are ASCII. -/
theorem dumpMembersRest_ascii : ∀ (ms : Obj), printableObj ms = true →
    ∀ c ∈ dumpMembersRest ms, c.toNat < 128
  | [], _, c, hc => by simp [dumpMembersRest] at hc
  | (k, v) :: ms, h, c, hc => by
    have hh := h
    simp only [printableObj, List.all_cons, Bool.and_eq_true] at hh
    obtain ⟨⟨hk, hv⟩, hms'⟩ := hh
    have hms : printableObj ms = true := hms'
    simp only [dumpMembersRest, List.mem_cons, List.mem_append] at hc
    rcases hc with (rfl | hc) | hc
    · decide
    · exact dumpMember_ascii k v hk hv c hc
    · exact dumpMembersRest_ascii ms hms c hc

/-- The whole serialization of a printable record is ASCII — the effect of
the `ensure_ascii` default of `json.dumps`, restricted to printable
input. -/
theorem dumpObj_ascii (obj : Obj) (h : printableObj obj = true) :
    ∀ c ∈ dumpObj obj, c.toNat < 128 := by
  match obj with
  | [] => intro c hc; simp only [dumpObj, List.mem_cons, List.not_mem_nil, or_false] at hc
          rcases hc with rfl | rfl <;> decide
  | (k, v) :: ms =>
    have hh := h
    simp only [printableObj, List.all_cons, Bool.and_eq_true] at hh
    obtain ⟨⟨hk, hv⟩, hms'⟩ := hh
    have hms : printableObj ms = true := hms'
    intro c hc
    simp only [dumpObj, List.mem_cons, List.mem_append, List.not_mem_nil, or_false] at hc
    rcases hc with ((rfl | hc) | hc) | rfl
    · decide
    · exact dumpMember_ascii k v hk hv c hc
    · exact dumpMembersRest_ascii ms hms c hc
    · decide

/-- Decoding inverts encoding at the record level: for a printable record,
decoding the scheme marker followed by the base64 of the UTF-8 bytes of
the record's serialization returns exactly that record. -/
theorem decode_encode_obj (obj : Obj) (h : printableObj obj = true) :
    decode_astrovpn_url (schemeChars ++ b64encode (utf8Encode (dumpObj obj))) =
      Except.ok obj := by
  have hascii : ∀ c ∈ dumpObj obj, c.toNat < 128 := dumpObj_ascii obj h
  have henc : utf8Encode (dumpObj obj) = (dumpObj obj).map Char.toNat :=
    utf8Encode_ascii _ hascii
  have hbytes : ∀ b ∈ (dumpObj obj).map Char.toNat, b < 256 := by
    intro b hb
    simp only [List.mem_map] at hb
    obtain ⟨c, hc, rfl⟩ := hb
    have := hascii c hc
    omega
  have hall : ((b64encode ((dumpObj obj).map Char.toNat)).all
      fun c => decide (c.toNat < 128)) = true := by
    rw [List.all_eq_true]
    intro c hc
    simpa using b64encode_ascii _ hbytes c hc
  have hb64 : b64decode (b64encode ((dumpObj obj).map Char.toNat)) =
      some ((dumpObj obj).map Char.toNat) := by
    unfold b64decode
    rw [if_pos hall, a2b_b64encode _ hbytes]
  rw [henc]
  simp only [decode_astrovpn_url, startsWith_append, if_true, eq_self_iff_true,
    List.drop_left, hb64, utf8Decode_ascii _ hascii, json_loads_dumpObj obj h]

/-- Every Unicode scalar value is below `0x110000`. -/
theorem char_toNat_lt (c : Char) : c.toNat < 0x110000 := by
  rcases c.valid with h | ⟨h1, h2⟩
  · exact Nat.lt_trans h (by omega)
  · exact h2

/-- UTF-8 encoding emits genuine bytes for any character. -/
theorem utf8EncodeChar_lt (c : Char) : ∀ b ∈ utf8EncodeChar c, b < 256 := by
  intro b hb
  have hcv : c.toNat < 0x110000 := char_toNat_lt c
  by_cases h1 : c.toNat < 0x80
  · simp [utf8EncodeChar, h1] at hb
    omega
  · by_cases h2 : c.toNat < 0x800
    · simp [utf8EncodeChar, h1, h2] at hb
      rcases hb with rfl | rfl <;> omega
    · by_cases h3 : c.toNat < 0x10000
      · simp [utf8EncodeChar, h1, h2, h3] at hb
        rcases hb with rfl | rfl | rfl <;> omega
      · simp [utf8EncodeChar, h1, h2, h3] at hb
        rcases hb with rfl | rfl | rfl | rfl <;> omega

/-- UTF-8 encoding emits genuine bytes for any string. -/
theorem utf8Encode_lt : ∀ (s : List Char), ∀ b ∈ utf8Encode s, b < 256
  | [], b, hb => by simp [utf8Encode] at hb
  | c :: cs, b, hb => by
    simp only [utf8Encode, List.mem_append] at hb
    rcases hb with hb | hb
    · exact utf8EncodeChar_lt c b hb
    · exact utf8Encode_lt cs b hb

/-! ## The claims -/

/-- C1: Round-trip law — for every five-tuple of printable text (name,
server, domain_service, key_url, description), decoding the URL produced
by the encoder returns exactly the record with those five field values:
`decode_astrovpn_url (generate_astrovpn_url ...)` is the profile record. -/
theorem claim_C1_roundtrip (name server domain_service key_url description : List Char)
    (h1 : printableStr name = true) (h2 : printableStr server = true)
    (h3 : printableStr domain_service = true) (h4 : printableStr key_url = true)
    (h5 : printableStr description = true) :
    decode_astrovpn_url
        (generate_astrovpn_url name server domain_service key_url description) =
      Except.ok (profileObj name server domain_service key_url description) := by
  have hobj : printableObj (profileObj name server domain_service key_url description) =
      true := by
    simp only [printableObj, profileObj, List.all_cons, List.all_nil, Bool.and_eq_true,
      and_true]
    exact ⟨⟨by decide, h1⟩, ⟨by decide, h2⟩, ⟨by decide, h3⟩, ⟨by decide, h4⟩,
      ⟨by decide, h5⟩⟩
  exact decode_encode_obj _ hobj

/-- Witness for C1 at a concrete printable five-tuple. -/
theorem claim_C1_roundtrip_witness :
    (printableStr (chars "My VPN") = true ∧ printableStr (chars "vpn.example.com") = true ∧
      printableStr (chars "https://api.example.com") = true ∧
      printableStr (chars "https://keys.example.com/a.ovpn") = true ∧
      printableStr (chars "Test profile") = true) ∧
    decode_astrovpn_url (generate_astrovpn_url (chars "My VPN") (chars "vpn.example.com")
        (chars "https://api.example.com") (chars "https://keys.example.com/a.ovpn")
        (chars "Test profile")) =
      Except.ok (profileObj (chars "My VPN") (chars "vpn.example.com")
        (chars "https://api.example.com") (chars "https://keys.example.com/a.ovpn")
        (chars "Test profile")) :=
  ⟨⟨by decide, by decide, by decide, by decide, by decide⟩,
    claim_C1_roundtrip _ _ _ _ _ (by decide) (by decide) (by decide) (by decide) (by decide)⟩

/-- C2: every input that does not start with the literal `astrovpn://`
makes the decoder fail with the InvalidScheme condition. -/
theorem claim_C2_invalid_scheme (url : List Char)
    (h : startsWith url schemeChars = false) :
    decode_astrovpn_url url = Except.error DecodeError.invalidScheme := by
  simp [decode_astrovpn_url, h]

/-- Witness for C2 at a concrete non-matching input. -/
theorem claim_C2_invalid_scheme_witness :
    startsWith (chars "http://example.com") schemeChars = false ∧
    decode_astrovpn_url (chars "http://example.com") =
      Except.error DecodeError.invalidScheme :=
  ⟨by decide, claim_C2_invalid_scheme _ (by decide)⟩

/-- C3 counterexample: the claim demands a MalformedEncoding failure for
every remainder containing a character outside the base64 alphabet, but
the decoder succeeds on `astrovpn://eyJhIjoiYiJ9!` — the remainder
contains `!`, which is outside the alphabet, yet the inverse transform
discards it and decoding returns the record `a ↦ b`. -/
theorem claim_C3_counterexample :
    Char.ofNat 33 ∈ (chars "astrovpn://eyJhIjoiYiJ9!").drop schemeChars.length ∧
    b64index (Char.ofNat 33) = none ∧
    decode_astrovpn_url (chars "astrovpn://eyJhIjoiYiJ9!") =
      Except.ok [(chars "a", chars "b")] :=
  ⟨by decide, rfl, rfl⟩

/-- C3 (amended): with the correct scheme marker, a remainder that
contains no padding character and whose count of alphabet characters is
not a multiple of four makes the decoder fail with MalformedEncoding
(characters outside the alphabet are discarded, not rejected). -/
theorem claim_C3_amended (url : List Char)
    (hpre : startsWith url schemeChars = true)
    (hpad : ∀ c ∈ url.drop schemeChars.length, c ≠ Char.ofNat 61)
    (hcount : b64charCount (url.drop schemeChars.length) % 4 ≠ 0) :
    decode_astrovpn_url url = Except.error DecodeError.malformedEncoding := by
  simp only [decode_astrovpn_url, hpre, if_true]
  unfold b64decode
  by_cases hascii :
      ((url.drop schemeChars.length).all fun c => decide (c.toNat < 128)) = true
  · rw [if_pos hascii,
      a2bLoop_none_of_count _ 0 0 0 (by omega) hpad (by simpa using hcount)]
  · rw [if_neg hascii]

/-- Witness for the amended C3 at the spec's own example input
`astrovpn://not-valid-base64!!!` (14 alphabet characters, no padding). -/
theorem claim_C3_amended_witness :
    startsWith (chars "astrovpn://not-valid-base64!!!") schemeChars = true ∧
    (∀ c ∈ (chars "astrovpn://not-valid-base64!!!").drop schemeChars.length,
      c ≠ Char.ofNat 61) ∧
    b64charCount ((chars "astrovpn://not-valid-base64!!!").drop schemeChars.length) % 4 ≠ 0 ∧
    decode_astrovpn_url (chars "astrovpn://not-valid-base64!!!") =
      Except.error DecodeError.malformedEncoding :=
  ⟨by decide, by decide, by decide,
    claim_C3_amended _ (by decide) (by decide) (by decide)⟩

/-- C4 counterexample: the claim says the encoder never produces a URL
with an empty required field, but the generate command applied to four
empty-string arguments produces a URL — the encoder proceeds with all
required fields empty. -/
theorem claim_C4_counterexample :
    main_generate [[], [], [], []] = some (generate_astrovpn_url [] [] [] [] []) ∧
    startsWith (generate_astrovpn_url [] [] [] [] []) schemeChars = true :=
  ⟨rfl, startsWith_append _ _⟩

/-- C4 (amended): at encode time the four required fields must be present
— the generate command produces no URL exactly when fewer than four
arguments are given — but their non-emptiness is not enforced. -/
theorem claim_C4_amended (args : List (List Char)) :
    main_generate args = none ↔ args.length < 4 := by
  unfold main_generate
  by_cases h : args.length < 4
  · simp [h]
  · simp [h]

/-- C5: for every five-tuple, the encoder's output is exactly the literal
scheme marker followed by the standard padded base64 of the compact
canonical serialization of the record (keys in the fixed order name,
server, domain_service, key_url, description); every output starts with
the marker and its payload uses only the standard alphabet and padding. -/
theorem claim_C5_format (name server domain_service key_url description : List Char) :
    generate_astrovpn_url name server domain_service key_url description =
      schemeChars ++ b64encode (utf8Encode (dumpObj
        (profileObj name server domain_service key_url description))) ∧
    startsWith (generate_astrovpn_url name server domain_service key_url description)
      schemeChars = true ∧
    ∀ c ∈ (generate_astrovpn_url name server domain_service key_url description).drop
        schemeChars.length, c ∈ b64alphabet ∨ c = Char.ofNat 61 := by
  refine ⟨rfl, startsWith_append _ _, ?_⟩
  intro c hc
  rw [show generate_astrovpn_url name server domain_service key_url description =
      schemeChars ++ b64encode (utf8Encode (dumpObj
        (profileObj name server domain_service key_url description))) from rfl,
    List.drop_left] at hc
  exact b64encode_mem _ (utf8Encode_lt _) c hc

/-- C6: the decoder does not validate that required fields are present:
for every printable well-formed record — in particular one lacking the
required fields — decoding a URL whose payload is the valid encoding of
that record succeeds and returns the record as-is. -/
theorem claim_C6_no_validation (obj : Obj) (hp : printableObj obj = true)
    (_hnd : (obj.map Prod.fst).Nodup) :
    decode_astrovpn_url (schemeChars ++ b64encode (utf8Encode (dumpObj obj))) =
      Except.ok obj :=
  decode_encode_obj obj hp

/-- Witness for C6 at the record holding only `server ↦ x`: the decode
succeeds though name, domain_service, key_url and description are all
absent. -/
theorem claim_C6_no_validation_witness :
    printableObj [(chars "server", chars "x")] = true ∧
    (([(chars "server", chars "x")] : Obj).map Prod.fst).Nodup ∧
    decode_astrovpn_url (schemeChars ++ b64encode (utf8Encode
        (dumpObj [(chars "server", chars "x")]))) =
      Except.ok [(chars "server", chars "x")] :=
  ⟨by decide, by decide, claim_C6_no_validation _ (by decide) (by decide)⟩

/-- C7: encoding with the optional description omitted uses the empty
string — the `main` dispatcher passes `""` when no fifth argument is
given, and decoding the four-field invocation yields a record whose
description field is the empty string. -/
theorem claim_C7_default_description (name server domain_service key_url : List Char)
    (h1 : printableStr name = true) (h2 : printableStr server = true)
    (h3 : printableStr domain_service = true) (h4 : printableStr key_url = true) :
    decode_astrovpn_url (generate_astrovpn_url name server domain_service key_url []) =
      Except.ok (profileObj name server domain_service key_url []) ∧
    List.lookup (chars "description")
      (profileObj name server domain_service key_url []) = some [] := by
  constructor
  · have hobj : printableObj (profileObj name server domain_service key_url []) = true := by
      simp only [printableObj, profileObj, List.all_cons, List.all_nil, Bool.and_eq_true,
        and_true]
      exact ⟨⟨by decide, h1⟩, ⟨by decide, h2⟩, ⟨by decide, h3⟩, ⟨by decide, h4⟩,
        ⟨by decide, by decide⟩⟩
    exact decode_encode_obj _ hobj
  · simp [profileObj, List.lookup,
      show ((chars "description" == chars "name") = false) from by decide,
      show ((chars "description" == chars "server") = false) from by decide,
      show ((chars "description" == chars "domain_service") = false) from by decide,
      show ((chars "description" == chars "key_url") = false) from by decide,
      show ((chars "description" == chars "description") = true) from by decide]

/-- Witness for C7 at the spec's scenario `generate "A" "b" "c" "d"`. -/
theorem claim_C7_default_description_witness :
    (printableStr (chars "A") = true ∧ printableStr (chars "b") = true ∧
      printableStr (chars "c") = true ∧ printableStr (chars "d") = true) ∧
    decode_astrovpn_url
        (generate_astrovpn_url (chars "A") (chars "b") (chars "c") (chars "d") []) =
      Except.ok (profileObj (chars "A") (chars "b") (chars "c") (chars "d") []) ∧
    List.lookup (chars "description")
      (profileObj (chars "A") (chars "b") (chars "c") (chars "d") []) = some [] :=
  ⟨⟨by decide, by decide, by decide, by decide⟩,
    claim_C7_default_description _ _ _ _ (by decide) (by decide) (by decide) (by decide)⟩

/-- C8: decoding the bare scheme marker with an empty payload fails — the
empty payload base64-decodes to the empty byte string, which is not a
parsable record, so the decoder fails with MalformedPayload (one of the
two failure kinds the claim allows). -/
theorem claim_C8_empty_payload :
    decode_astrovpn_url (chars "astrovpn://") = Except.error DecodeError.malformedEncoding ∨
    decode_astrovpn_url (chars "astrovpn://") = Except.error DecodeError.malformedPayload :=
  Or.inr rfl

/-- C9: there is a URL with the correct scheme marker whose remainder
contains a character outside the base64 alphabet (`!`, code 33) for which
the decoder nevertheless succeeds, because the inverse transform discards
non-alphabet characters: `astrovpn://e30=!` decodes to the empty record. -/
theorem claim_C9_nonalphabet_accepted :
    Char.ofNat 33 ∈ (chars "astrovpn://e30=!").drop schemeChars.length ∧
    b64index (Char.ofNat 33) = none ∧
    decode_astrovpn_url (chars "astrovpn://e30=!") = Except.ok [] :=
  ⟨by decide, rfl, rfl⟩

/-- C10: the encoder is total over string inputs — for every five-tuple,
including all-empty fields, it returns a URL starting with `astrovpn://`;
in particular the all-empty invocation produces a valid URL that decodes
back to the all-empty record. -/
theorem claim_C10_encoder_total :
    (∀ name server domain_service key_url description : List Char,
      startsWith (generate_astrovpn_url name server domain_service key_url description)
        schemeChars = true) ∧
    decode_astrovpn_url (generate_astrovpn_url [] [] [] [] []) =
      Except.ok (profileObj [] [] [] [] []) :=
  ⟨fun _ _ _ _ _ => startsWith_append _ _, decode_encode_obj _ (by decide)⟩
